import Mathlib

/-!
Verification of the FollowRWSBot moderation pipeline (src/main.py):
verdict algebra, blocklist filter, link extraction, host canonicalization,
enforcement threshold and warning throttle.
-/

namespace FRWS

/-- Severity verdict, from `class Verdict(enum.IntEnum)`. -/
inductive Verdict where
  | SAFE
  | QUESTIONABLE
  | SCAM
deriving DecidableEq, Fintype

/-- Numeric values assigned in the source: SAFE = 0, QUESTIONABLE = 10, SCAM = 20. -/
def Verdict.val : Verdict → Nat
  | .SAFE => 0
  | .QUESTIONABLE => 10
  | .SCAM => 20

/-- Python `max(self.verdict, other.verdict)` under the IntEnum ordering. -/
def Verdict.vmax (a b : Verdict) : Verdict :=
  if a.val < b.val then b else a

/-- `FilterResult`: a verdict plus an optional list of explanation strings. -/
structure FilterResult where
  verdict : Verdict
  explanation : Option (List String) := none
deriving DecidableEq

/-- `FilterResult.empty()`: `FilterResult(Verdict.SAFE)` with explanation `None`. -/
def FilterResult.empty : FilterResult := ⟨.SAFE, none⟩

/-- Python truthiness of an `Optional[List[str]]`: `None` and `[]` are falsy. -/
def pyTruthy (e : Option (List String)) : Bool :=
  match e with
  | none => false
  | some l => !l.isEmpty

/-- Normal form of a merged explanation: a concatenation that came out empty
collapses to `none`. -/
def explNorm (l : List String) : Option (List String) :=
  if l.isEmpty then none else some l

/-- `FilterResult.append`: verdict is the max, explanations are concatenated
with `None` treated as `[]`, and the result is `None` when both are falsy. -/
def FilterResult.append (a b : FilterResult) : FilterResult :=
  { verdict := a.verdict.vmax b.verdict
    explanation :=
      if pyTruthy a.explanation || pyTruthy b.explanation then
        some (a.explanation.getD [] ++ b.explanation.getD [])
      else none }

instance {ε α : Type} [DecidableEq ε] [DecidableEq α] : DecidableEq (Except ε α) :=
  fun a b =>
    match a, b with
    | .ok x, .ok y => if h : x = y then .isTrue (by simp [h]) else .isFalse (by simp [h])
    | .error x, .error y =>
      if h : x = y then .isTrue (by simp [h]) else .isFalse (by simp [h])
    | .ok _, .error _ => .isFalse (by simp)
    | .error _, .ok _ => .isFalse (by simp)

/-- Adding an element to a Python `set` modelled as a duplicate-free list:
membership is the only observable the program uses, so insertion order is
immaterial downstream (emptiness, intersection and `sorted` are all
membership- or order-normalizing operations). -/
def pyInsert (x : String) (l : List String) : List String :=
  if x ∈ l then l else l ++ [x]

/-- Lexicographic comparison of character lists by code point, the order
Python's `sorted` uses on strings. -/
def charsLe : List Char → List Char → Bool
  | [], _ => true
  | _ :: _, [] => false
  | a :: as, b :: bs => if a < b then true else if b < a then false else charsLe as bs

/-- String comparison used by `sorted`. -/
def strLe (a b : String) : Bool := charsLe a.data b.data

/-- Insert a string into an already sorted list. -/
def insertSorted (s : String) : List String → List String
  | [] => [s]
  | t :: r => if strLe s t then s :: t :: r else t :: insertSorted s r

/-- Python's `sorted` on a set of strings: insertion sort (the order is
total, so any sort agrees). -/
def sortStrs (l : List String) : List String := l.foldr insertSorted []

/-- Entity type tag of a Telegram message entity (`e.type` in the source). -/
inductive EntityType where
  | url
  | text_link
  | mention
  | other
deriving DecidableEq

/-- A message entity: its type, the text segment `msg.parse_entity(e)` resolves
to, and for `text_link` entities the explicit target URL attribute `e.url`. -/
structure MessageEntity where
  type : EntityType
  seg : String
  url : String := ""
deriving DecidableEq

/-- The slice of `telegram.Message` the pipeline reads: optional originating
user id, message id, and the entity lists of body and caption. -/
structure Message where
  from_user : Option Nat
  message_id : Nat
  entities : List MessageEntity
  caption_entities : List MessageEntity
deriving DecidableEq

/-- The slice of `telegram.Update` the pipeline reads. -/
structure Update where
  message : Option Message
  edited_message : Option Message
  chat_id : Nat
deriving DecidableEq

/-- One entity step of `_collect_all_links`. The host canonicalizer is passed
as a parameter `f` standing for `_host` (url_normalize + urlparse), returning
`none` when the raw value cannot be parsed (the library raises there); the
source has no handler, so the failure is surfaced in `Except`. -/
def collectEntity (f : String → Option String) (e : MessageEntity) :
    Except Unit (Option String) :=
  match e.type with
  | .url =>
    match f e.seg with
    | some h => .ok (some h)
    | none => .error ()
  | .text_link =>
    match f e.url with
    | some h => .ok (some h)
    | none => .error ()
  | .mention => .ok (some e.seg.toLower)
  | .other => .ok none

/-- The loop body of `_collect_all_links` acting on the accumulated set. -/
def collectStep (f : String → Option String) (res : List String)
    (e : MessageEntity) : Except Unit (List String) := do
  match ← collectEntity f e with
  | some s => pure (pyInsert s res)
  | none => pure res

/-- `_collect_all_links`: folds over `itertools.chain(msg.entities,
msg.caption_entities)` accumulating a set; a canonicalization failure
propagates (there is no try/except in the source). -/
def _collect_all_links (f : String → Option String) (msg : Message) :
    Except Unit (List String) :=
  (msg.entities ++ msg.caption_entities).foldlM (collectStep f) ([] : List String)

/-- Modelled from the spec: the claimed per-reference error behavior — a
url/text-link reference whose raw value cannot be parsed is dropped from the
output set silently and the remaining references are still collected. Stated
only for comparison with the source-faithful `_collect_all_links`. -/
def dropCollectAllLinks (f : String → Option String) (msg : Message) :
    List String :=
  (msg.entities ++ msg.caption_entities).foldl
    (fun res e =>
      match e.type with
      | .url => match f e.seg with | some h => pyInsert h res | none => res
      | .text_link => match f e.url with | some h => pyInsert h res | none => res
      | .mention => pyInsert e.seg.toLower res
      | .other => res)
    []

/-- The message scanned by `BlocklistFilter.assess`: the first element of
`[update.message, update.edited_message]` that is present and has a
non-`None` `from_user` (the loop body guards on both before `break`). -/
def scannedMessage (u : Update) : Option Message :=
  ([u.message, u.edited_message].filterMap id).find? (fun m => m.from_user.isSome)

/-- The link set computed by `BlocklistFilter.assess` before intersection. -/
def assessLinks (f : String → Option String) (u : Update) :
    Except Unit (List String) :=
  match scannedMessage u with
  | some m => _collect_all_links f m
  | none => .ok ([] : List String)

/-- `BlocklistFilter.assess`: intersect the collected links with the
blocklist; non-empty intersection yields SCAM with the sorted, space-joined
intersection in the explanation, otherwise SAFE with no explanation. -/
def assess (f : String → Option String) (blocklist : List String)
    (u : Update) : Except Unit FilterResult :=
  match assessLinks f u with
  | .error e => .error e
  | .ok links =>
    let isec := links.filter (fun s => s ∈ blocklist)
    if isec.length ≠ 0 then
      .ok ⟨.SCAM, some ["Message mentions blocked content: " ++
        " ".intercalate (sortStrs isec)]⟩
    else
      .ok ⟨.SAFE, none⟩

/-- `msg = update.message or update.edited_message` in `_handle_message`. -/
def selectedMessage (u : Update) : Option Message :=
  u.message <|> u.edited_message

/-- Modelled from the spec: the claimed scanning rule — only the first
non-null message among {original, edited} is scanned for link extraction,
and when neither is present the reference set is empty. Stated only for
comparison with the source-faithful `assessLinks`. -/
def specScannedLinks (f : String → Option String) (u : Update) :
    Except Unit (List String) :=
  match selectedMessage u with
  | some m => _collect_all_links f m
  | none => .ok []

/-- The aggregate verdict folded in `_handle_message`:
`verdict = verdict.append(f.assess(update))` over the configured filters
(all filters in the registry are blocklist filters). -/
def handlerVerdict (f : String → Option String) (bls : List (List String))
    (u : Update) : Except Unit FilterResult :=
  bls.foldlM (fun acc bl => (assess f bl u).map (fun r => acc.append r))
    FilterResult.empty

/-- Outcome of one `_handle_message` invocation. `enforce` is the call to
`_handle_scam` with the arguments the source passes; `attrError` is the
`AttributeError` raised by `msg.from_user.id` when `from_user` is `None`;
`filterError` is an exception escaping a filter's `assess`. -/
inductive HandleOutcome where
  | noAction
  | enforce (chat_id : Nat) (message_from : Nat) (reply_to : Nat)
  | attrError
  | filterError
deriving DecidableEq

/-- `Bot._handle_message`: early return when neither message is present,
otherwise fold the filter verdicts and call `_handle_scam` exactly on
`verdict.verdict == Verdict.SCAM`. -/
def _handle_message (f : String → Option String) (bls : List (List String))
    (u : Update) : HandleOutcome :=
  if u.message.isNone ∧ u.edited_message.isNone then .noAction
  else
    match selectedMessage u with
    | none => .noAction
    | some msg =>
      match handlerVerdict f bls u with
      | .error _ => .filterError
      | .ok verdict =>
        if verdict.verdict = .SCAM then
          match msg.from_user with
          | some uid => .enforce u.chat_id uid msg.message_id
          | none => .attrError
        else .noAction

/-- Result of one `_handle_scam` call on a SCAM verdict. -/
inductive ScamAction where
  | deleted
  | deleteFailed
  | warned
  | throttled
  | sendFailed
deriving DecidableEq

/-- `Bot._handle_scam`: admin mode deletes (never touching `_last_post`);
canary mode throttles when less than 60 seconds elapsed since `_last_post`,
otherwise sends the warning and only then records the timestamp. `opOk`
models whether the external delete/send call succeeds; when it raises, the
assignment `self._last_post = now` is never reached. -/
def _handle_scam (isAdmin : Bool) (opOk : Bool) (last_post : Option Int)
    (now : Int) : Option Int × ScamAction :=
  if isAdmin then
    (last_post, if opOk then .deleted else .deleteFailed)
  else
    match last_post with
    | some t =>
      if now - t < 60 then (some t, .throttled)
      else if opOk then (some now, .warned) else (some t, .sendFailed)
    | none => if opOk then (some now, .warned) else (none, .sendFailed)

/-- Sequential handling of SCAM verdicts: each triple is (bot is admin,
external call succeeds, current time); the throttle state threads through. -/
def runScamSeq (last_post : Option Int) :
    List (Bool × Bool × Int) → Option Int × List ScamAction
  | [] => (last_post, [])
  | (adm, ok, t) :: rest =>
    let step := _handle_scam adm ok last_post t
    let tail := runScamSeq step.1 rest
    (tail.1, step.2 :: tail.2)

/-- Does a character end the authority component of a URL (start of path,
query or fragment)? -/
def isAuthorityEnd (c : Char) : Bool := c = '/' || c = '?' || c = '#'

/-- Scan for the first `://` marker; on success return the characters before
it (the scheme) and the characters after it. -/
def splitSchemeAux : List Char → List Char → Option (List Char × List Char)
  | _, [] => none
  | acc, c :: rest =>
    if c = ':' ∧ rest.take 2 = ['/', '/'] then some (acc.reverse, rest.drop 2)
    else splitSchemeAux (c :: acc) rest

/-- Split a URL string into scheme and remainder, resolving the default
scheme `https` when no `://` marker is present. -/
def splitScheme (l : List Char) : List Char × List Char :=
  match splitSchemeAux [] l with
  | some sr => sr
  | none => ("https".data, l)

/-- The default port suffix stripped for a scheme (`:80` for http, `:443`
for https); other schemes have none. -/
def defaultPortSuffix (scheme : List Char) : List Char :=
  if scheme = "http".data then ":80".data
  else if scheme = "https".data then ":443".data
  else []

/-- Remove a trailing default-port suffix if present. -/
def stripPortSuffix (suf l : List Char) : List Char :=
  if suf ≠ [] ∧ suf.isSuffixOf l then l.take (l.length - suf.length) else l

/-- Modelled from the spec: the `_host` canonicalizer delegates to the
external libraries `url_normalize` and `urllib.parse`, whose sources are not
part of this repository; following §4.2, a missing scheme is resolved to the
default `https`, the authority component is extracted (everything up to the
first `/`, `?` or `#`), the host is lowercased, and the scheme's default
port is stripped while a non-default port is preserved. -/
def hostModelChars (l : List Char) : List Char :=
  let sr := splitScheme l
  let auth := (sr.2.takeWhile fun c => !isAuthorityEnd c).map Char.toLower
  stripPortSuffix (defaultPortSuffix (sr.1.map Char.toLower)) auth

/-- Modelled from the spec: string wrapper of `hostModelChars`. -/
def hostModel (s : String) : String := ⟨hostModelChars s.data⟩

/-- A host canonicalizer that never fails, used to instantiate theorems that
hold for every canonicalizer. -/
def hostTotal : String → Option String := fun s => some s

/-- A host canonicalizer that fails on the concrete malformed URL
`http://[`, on which the real `urllib.parse.urlparse` raises
`ValueError: Invalid IPv6 URL`. -/
def hostFail : String → Option String :=
  fun s => if s = "http://[" then none else some s

/-- A message from user 5 whose only entity is a url canonicalizing to
`evil.example`. -/
def mEvil : Message :=
  { from_user := some 5, message_id := 3
    entities := [⟨.url, "evil.example", ""⟩], caption_entities := [] }

/-- An update carrying only `mEvil` as its original message. -/
def uEvil : Update := { message := some mEvil, edited_message := none, chat_id := 9 }

/-- A message holding one malformed url entity and one good url entity. -/
def mBad : Message :=
  { from_user := some 4, message_id := 2
    entities := [⟨.url, "http://[", ""⟩, ⟨.url, "good.example", ""⟩]
    caption_entities := [] }

/-- An update carrying only `mBad` as its original message. -/
def uBad : Update := { message := some mBad, edited_message := none, chat_id := 1 }

/-- A message with no originating user whose only entity is a url
canonicalizing to `evil.example`. -/
def mNoUser : Message :=
  { from_user := none, message_id := 1
    entities := [⟨.url, "evil.example", ""⟩], caption_entities := [] }

/-- An update whose only (original) message is `mNoUser`. -/
def uNoUser : Update :=
  { message := some mNoUser, edited_message := none, chat_id := 7 }

theorem vmax_assoc : ∀ a b c : Verdict, (a.vmax b).vmax c = a.vmax (b.vmax c) := by
  decide

theorem vmax_comm : ∀ a b : Verdict, a.vmax b = b.vmax a := by
  decide

theorem vmax_safe_left : ∀ a : Verdict, Verdict.SAFE.vmax a = a := by
  decide

theorem vmax_eq_left_or_right : ∀ a b : Verdict, a.vmax b = a ∨ a.vmax b = b := by
  decide

theorem filterResult_eq {x y : FilterResult} (hv : x.verdict = y.verdict)
    (he : x.explanation = y.explanation) : x = y := by
  cases x
  cases y
  simp_all

theorem append_verdict (a b : FilterResult) :
    (a.append b).verdict = a.verdict.vmax b.verdict := rfl

theorem append_explanation (a b : FilterResult) :
    (a.append b).explanation =
      explNorm (a.explanation.getD [] ++ b.explanation.getD []) := by
  rcases a with ⟨av, ae⟩
  rcases b with ⟨bv, be⟩
  rcases ae with _ | la
  · rcases be with _ | lb
    · simp [FilterResult.append, pyTruthy, explNorm]
    · rcases lb with _ | ⟨y, ys⟩ <;> simp [FilterResult.append, pyTruthy, explNorm]
  · rcases be with _ | lb
    · rcases la with _ | ⟨x, xs⟩ <;> simp [FilterResult.append, pyTruthy, explNorm]
    · rcases la with _ | ⟨x, xs⟩ <;> rcases lb with _ | ⟨y, ys⟩ <;>
        simp [FilterResult.append, pyTruthy, explNorm]

theorem getD_explNorm (l : List String) : (explNorm l).getD [] = l := by
  rcases l with _ | ⟨x, xs⟩ <;> simp [explNorm]

/-- C1: counterexample — `FilterResult.append` is not commutative (two
non-empty explanations concatenate in call order), and `FilterResult(SAFE,
none)` is not an identity on a result carrying the explicit empty
explanation list (it collapses to `none`). -/
theorem C1_counterexample :
    FilterResult.append ⟨.SAFE, some ["x"]⟩ ⟨.SAFE, some ["y"]⟩ ≠
      FilterResult.append ⟨.SAFE, some ["y"]⟩ ⟨.SAFE, some ["x"]⟩ ∧
    FilterResult.empty.append ⟨.SAFE, some []⟩ ≠ ⟨.SAFE, some []⟩ := by
  decide

/-- C1 (amended): `FilterResult.append` is associative; `FilterResult(SAFE,
none)` is a left identity for every result whose explanation is not the
explicit empty list; `append` commutes when at least one operand's
explanation is absent or empty; and the merged verdict always commutes. -/
theorem C1_amended :
    (∀ a b c : FilterResult, (a.append b).append c = a.append (b.append c)) ∧
    (∀ a : FilterResult, a.explanation ≠ some [] → FilterResult.empty.append a = a) ∧
    (∀ a b : FilterResult, a.explanation.getD [] = [] ∨ b.explanation.getD [] = [] →
      a.append b = b.append a) ∧
    (∀ a b : FilterResult, (a.append b).verdict = (b.append a).verdict) := by
  refine ⟨fun a b c => ?_, fun a ha => ?_, fun a b hab => ?_, fun a b => ?_⟩
  · refine filterResult_eq ?_ ?_
    · rw [append_verdict, append_verdict, append_verdict, append_verdict, vmax_assoc]
    · rw [append_explanation, append_explanation, append_explanation,
        append_explanation, getD_explNorm, getD_explNorm, List.append_assoc]
  · refine filterResult_eq ?_ ?_
    · rw [append_verdict]
      exact vmax_safe_left a.verdict
    · rw [append_explanation]
      rcases he : a.explanation with _ | l
      · simp [explNorm, FilterResult.empty]
      · rcases l with _ | ⟨x, xs⟩
        · exact absurd he ha
        · simp [explNorm, FilterResult.empty]
  · refine filterResult_eq ?_ ?_
    · rw [append_verdict, append_verdict, vmax_comm]
    · rw [append_explanation, append_explanation]
      rcases hab with h | h <;> rw [h] <;> simp
  · rw [append_verdict, append_verdict, vmax_comm]

/-- C1 witness: the amended laws applied at concrete filter results. -/
theorem C1_witness :
    (FilterResult.append (FilterResult.append ⟨.SCAM, some ["a"]⟩ ⟨.SAFE, some ["b"]⟩)
        ⟨.QUESTIONABLE, none⟩ =
      FilterResult.append ⟨.SCAM, some ["a"]⟩
        (FilterResult.append ⟨.SAFE, some ["b"]⟩ ⟨.QUESTIONABLE, none⟩)) ∧
    FilterResult.empty.append ⟨.QUESTIONABLE, some ["q"]⟩ = ⟨.QUESTIONABLE, some ["q"]⟩ ∧
    FilterResult.append ⟨.SCAM, some ["a"]⟩ ⟨.QUESTIONABLE, none⟩ =
      FilterResult.append ⟨.QUESTIONABLE, none⟩ ⟨.SCAM, some ["a"]⟩ ∧
    (FilterResult.append ⟨.SCAM, some ["a"]⟩ ⟨.SAFE, some ["b"]⟩).verdict =
      (FilterResult.append ⟨.SAFE, some ["b"]⟩ ⟨.SCAM, some ["a"]⟩).verdict :=
  ⟨C1_amended.1 _ _ _, C1_amended.2.1 _ (by decide),
    C1_amended.2.2.1 _ _ (Or.inr rfl), C1_amended.2.2.2 _ _⟩

/-- C2: whenever `BlocklistFilter.assess` extracts a set of canonical
references, a non-empty intersection with the blocklist yields SCAM with the
sorted, space-joined intersection in the single explanation string, and an
empty intersection yields SAFE with no explanation. -/
theorem C2_theorem (f : String → Option String) (bl : List String) (u : Update)
    (links : List String) (h : assessLinks f u = .ok links) :
    (links.filter (fun s => s ∈ bl) ≠ [] →
      assess f bl u = .ok ⟨.SCAM, some ["Message mentions blocked content: " ++
        " ".intercalate (sortStrs (links.filter (fun s => s ∈ bl)))]⟩) ∧
    (links.filter (fun s => s ∈ bl) = [] → assess f bl u = .ok ⟨.SAFE, none⟩) := by
  unfold assess
  rw [h]
  constructor
  · intro hne
    have hlen : (links.filter (fun s => s ∈ bl)).length ≠ 0 := by
      simpa [List.length_eq_zero] using hne
    simp [hlen]
  · intro heq
    simp [heq]

/-- C2 witness: a blocklisted link yields SCAM with the expected explanation
and a non-matching blocklist yields SAFE with no explanation. -/
theorem C2_witness :
    assess hostTotal ["evil.example"] uEvil =
      .ok ⟨.SCAM, some ["Message mentions blocked content: evil.example"]⟩ ∧
    assess hostTotal ["other.example"] uEvil = .ok ⟨.SAFE, none⟩ :=
  ⟨(C2_theorem hostTotal ["evil.example"] uEvil ["evil.example"] (by decide)).1
      (by decide),
   (C2_theorem hostTotal ["other.example"] uEvil ["evil.example"] (by decide)).2
      (by decide)⟩

theorem collectStep_error (f : String → Option String) (res : List String)
    (e : MessageEntity)
    (hbad : (e.type = .url ∧ f e.seg = none) ∨ (e.type = .text_link ∧ f e.url = none)) :
    collectStep f res e = .error () := by
  rcases hbad with ⟨ht, hf⟩ | ⟨ht, hf⟩ <;>
    simp [collectStep, collectEntity, ht, hf, Bind.bind, Except.bind]

theorem foldlM_collect_error (f : String → Option String) :
    ∀ (l : List MessageEntity) (init : List String) (e : MessageEntity),
      e ∈ l →
      (e.type = .url ∧ f e.seg = none) ∨ (e.type = .text_link ∧ f e.url = none) →
      l.foldlM (collectStep f) init = .error () := by
  intro l
  induction l with
  | nil =>
    intro init e he _
    exact absurd he (List.not_mem_nil e)
  | cons x xs ih =>
    intro init e he hbad
    rw [List.foldlM_cons]
    rcases List.mem_cons.mp he with rfl | hxs
    · rw [collectStep_error f init e hbad]
      rfl
    · cases hx : collectStep f init x with
      | error err => rfl
      | ok r => exact ih r e hxs hbad

/-- C3: counterexample — a malformed url reference is not dropped silently:
`_collect_all_links` aborts with the propagated parse failure instead of
returning the sibling reference set, and `assess` produces no verdict. -/
theorem C3_counterexample :
    _collect_all_links hostFail mBad = .error () ∧
    _collect_all_links hostFail mBad ≠ .ok (dropCollectAllLinks hostFail mBad) ∧
    dropCollectAllLinks hostFail mBad = ["good.example"] ∧
    assess hostFail ["good.example"] uBad = .error () := by
  decide

/-- C3 (amended): a url or text-link reference whose raw value cannot be
parsed aborts extraction entirely: `_collect_all_links` propagates the
failure, so no reference set is produced, sibling references are not
returned, and `assess` on a message containing such a reference yields no
verdict at all. -/
theorem C3_amended (f : String → Option String) (msg : Message)
    (e : MessageEntity) (he : e ∈ msg.entities ++ msg.caption_entities)
    (hbad : (e.type = .url ∧ f e.seg = none) ∨ (e.type = .text_link ∧ f e.url = none)) :
    _collect_all_links f msg = .error () ∧
    ∀ (bl : List String) (u : Update), scannedMessage u = some msg →
      assess f bl u = .error () := by
  have hc : _collect_all_links f msg = .error () :=
    foldlM_collect_error f _ _ e he hbad
  refine ⟨hc, fun bl u hu => ?_⟩
  have h2 : assessLinks f u = .error () := by
    unfold assessLinks
    rw [hu]
    exact hc
  unfold assess
  rw [h2]

/-- C3 witness: the amended abort behavior at the concrete malformed URL
`http://[`. -/
theorem C3_witness :
    _collect_all_links hostFail mBad = .error () ∧
    assess hostFail ["good.example"] uBad = .error () :=
  ⟨(C3_amended hostFail mBad ⟨.url, "http://[", ""⟩ (by decide)
      (Or.inl ⟨rfl, by decide⟩)).1,
   (C3_amended hostFail mBad ⟨.url, "http://[", ""⟩ (by decide)
      (Or.inl ⟨rfl, by decide⟩)).2 ["good.example"] uBad (by decide)⟩

theorem scanned_of_message (u : Update) (m : Message) (hm : u.message = some m)
    (hu : m.from_user.isSome) : scannedMessage u = some m := by
  unfold scannedMessage
  rw [hm]
  simp [List.filterMap_cons, List.find?_cons_of_pos, hu]

theorem scanned_of_edited (u : Update) (m2 : Message)
    (h1 : u.message = none ∨ ∃ m, u.message = some m ∧ m.from_user = none)
    (h2 : u.edited_message = some m2) (hu : m2.from_user.isSome) :
    scannedMessage u = some m2 := by
  unfold scannedMessage
  rcases h1 with h1 | ⟨m, h1, hnone⟩ <;> rw [h1, h2]
  · simp [List.filterMap_cons, List.find?_cons_of_pos, hu]
  · simp [List.filterMap_cons, List.find?_cons_of_neg, List.find?_cons_of_pos, hu, hnone]

theorem scanned_none (u : Update)
    (h1 : ∀ m, u.message = some m → m.from_user = none)
    (h2 : ∀ m, u.edited_message = some m → m.from_user = none) :
    scannedMessage u = none := by
  unfold scannedMessage
  rcases hm : u.message with _ | m <;> rcases he : u.edited_message with _ | m2
  · simp [List.filterMap_cons]
  · simp [List.filterMap_cons, List.find?_cons_of_neg, List.find?_nil, h2 m2 he]
  · simp [List.filterMap_cons, List.find?_cons_of_neg, List.find?_nil, h1 m hm]
  · simp [List.filterMap_cons, List.find?_cons_of_neg, List.find?_nil,
      h1 m hm, h2 m2 he]

/-- C4: counterexample — an update whose only (first non-null) message lacks
an originating user is not scanned at all: the claim's extraction rule
yields the message's blocked reference while the code extracts nothing and
returns SAFE. -/
theorem C4_counterexample :
    specScannedLinks hostTotal uNoUser = .ok ["evil.example"] ∧
    assessLinks hostTotal uNoUser = .ok [] ∧
    assessLinks hostTotal uNoUser ≠ specScannedLinks hostTotal uNoUser ∧
    assess hostTotal ["evil.example"] uNoUser = .ok ⟨.SAFE, none⟩ := by
  decide

/-- C4 (amended): link extraction scans only the first message among
{original, edited} that is present AND carries an originating user (never
both); when no such message exists the reference set is empty, and when
neither message is present the handler exits with no action. -/
theorem C4_amended :
    (∀ (f : String → Option String) (u : Update) (m : Message),
        u.message = some m → m.from_user.isSome →
        assessLinks f u = _collect_all_links f m) ∧
    (∀ (f : String → Option String) (u : Update) (m2 : Message),
        (u.message = none ∨ ∃ m, u.message = some m ∧ m.from_user = none) →
        u.edited_message = some m2 → m2.from_user.isSome →
        assessLinks f u = _collect_all_links f m2) ∧
    (∀ (f : String → Option String) (u : Update),
        (∀ m, u.message = some m → m.from_user = none) →
        (∀ m, u.edited_message = some m → m.from_user = none) →
        assessLinks f u = .ok []) ∧
    (∀ (f : String → Option String) (bls : List (List String)) (u : Update),
        u.message = none → u.edited_message = none →
        _handle_message f bls u = .noAction) := by
  refine ⟨fun f u m hm hu => ?_, fun f u m2 h1 h2 hu => ?_,
    fun f u h1 h2 => ?_, fun f bls u h1 h2 => ?_⟩
  · unfold assessLinks
    rw [scanned_of_message u m hm hu]
  · unfold assessLinks
    rw [scanned_of_edited u m2 h1 h2 hu]
  · unfold assessLinks
    rw [scanned_none u h1 h2]
  · unfold _handle_message
    simp [h1, h2]

/-- C4 witness: the amended scanning rule at concrete updates. -/
theorem C4_witness :
    assessLinks hostTotal uEvil = _collect_all_links hostTotal mEvil ∧
    assessLinks hostTotal { message := none, edited_message := some mEvil, chat_id := 9 } =
      _collect_all_links hostTotal mEvil ∧
    assessLinks hostTotal uNoUser = .ok [] ∧
    _handle_message hostTotal []
      { message := none, edited_message := none, chat_id := 0 } = .noAction :=
  ⟨C4_amended.1 hostTotal uEvil mEvil rfl rfl,
   C4_amended.2.1 hostTotal _ mEvil (Or.inl rfl) rfl rfl,
   C4_amended.2.2.1 hostTotal uNoUser
     (fun m h => by
       have hm : mNoUser = m := Option.some.inj h
       rw [← hm]
       rfl)
     (fun m h => Option.noConfusion h),
   C4_amended.2.2.2 hostTotal [] _ rfl rfl⟩

theorem assess_eq (f : String → Option String) (bl : List String) (u : Update)
    (links : List String) (h : assessLinks f u = .ok links) :
    assess f bl u =
      (if (links.filter (fun s => s ∈ bl)).length ≠ 0 then
        .ok ⟨.SCAM, some ["Message mentions blocked content: " ++
          " ".intercalate (sortStrs (links.filter (fun s => s ∈ bl)))]⟩
      else .ok ⟨.SAFE, none⟩) := by
  unfold assess
  rw [h]

theorem assess_scam_scanned (f : String → Option String) (bl : List String)
    (u : Update) (r : FilterResult) (h : assess f bl u = .ok r)
    (hscam : r.verdict = .SCAM) :
    ∃ m, scannedMessage u = some m ∧ m.from_user.isSome := by
  cases hl : assessLinks f u with
  | error e =>
    have herr : assess f bl u = .error e := by
      unfold assess
      rw [hl]
    rw [herr] at h
    exact absurd h (by simp)
  | ok links =>
    rw [assess_eq f bl u links hl] at h
    split at h
    · cases hs : scannedMessage u with
      | none =>
        have h0 : assessLinks f u = .ok [] := by
          unfold assessLinks
          rw [hs]
        rw [hl] at h0
        have hnil : links = [] := Except.ok.inj h0
        rename_i hc
        rw [hnil] at hc
        simp at hc
      | some m =>
        refine ⟨m, rfl, ?_⟩
        have hs2 : ([u.message, u.edited_message].filterMap id).find?
            (fun m => m.from_user.isSome) = some m := hs
        simpa using List.find?_some (p := fun mm : Message => mm.from_user.isSome) hs2
    · have hr : (⟨.SAFE, none⟩ : FilterResult) = r := Except.ok.inj h
      rw [← hr] at hscam
      exact absurd hscam (by decide)

theorem foldVerdict_scam (f : String → Option String) (u : Update) :
    ∀ (bls : List (List String)) (acc v : FilterResult),
      bls.foldlM (fun a bl => (assess f bl u).map (fun r => a.append r)) acc = .ok v →
      v.verdict = .SCAM →
      acc.verdict = .SCAM ∨
        ∃ bl ∈ bls, ∃ r, assess f bl u = .ok r ∧ r.verdict = .SCAM := by
  intro bls
  induction bls with
  | nil =>
    intro acc v h hv
    left
    have hav : acc = v := by simpa [pure, Except.pure] using h
    rw [hav]
    exact hv
  | cons bl bls ih =>
    intro acc v h hv
    rw [List.foldlM_cons] at h
    cases ha : assess f bl u with
    | error e =>
      rw [ha] at h
      simp [Except.map, Bind.bind, Except.bind] at h
    | ok r =>
      rw [ha] at h
      have h2 : bls.foldlM (fun a bl => (assess f bl u).map (fun r => a.append r))
          (acc.append r) = .ok v := by
        simpa [Except.map, Bind.bind, Except.bind] using h
      rcases ih (acc.append r) v h2 hv with hsc | ⟨bl2, hmem, r2, ha2, hr2⟩
      · rw [append_verdict] at hsc
        rcases vmax_eq_left_or_right acc.verdict r.verdict with he | he
        · left
          rw [← he]
          exact hsc
        · right
          refine ⟨bl, List.mem_cons_self bl bls, r, ha, ?_⟩
          rw [← he]
          exact hsc
      · exact Or.inr ⟨bl2, List.mem_cons_of_mem _ hmem, r2, ha2, hr2⟩

theorem selected_of_scanned (u : Update) (m : Message)
    (hone : ¬(u.message.isSome ∧ u.edited_message.isSome))
    (hs : scannedMessage u = some m) : selectedMessage u = some m := by
  unfold scannedMessage at hs
  unfold selectedMessage
  rcases hm : u.message with _ | m1 <;> rcases he : u.edited_message with _ | m2 <;>
    rw [hm, he] at hs
  · simp [List.filterMap_cons] at hs
  · have hmem := List.mem_of_find?_eq_some hs
    simp [List.filterMap_cons] at hmem
    rw [hmem]
    rfl
  · have hmem := List.mem_of_find?_eq_some hs
    simp [List.filterMap_cons] at hmem
    rw [hmem]
    rfl
  · exact absurd ⟨by rw [hm]; rfl, by rw [he]; rfl⟩ hone

/-- C5: assuming the transport invariant that an update carries at most one
of {original message, edited message}, enforcement is invoked exactly on an
aggregate SCAM verdict: SAFE and QUESTIONABLE verdicts produce no action,
and a SCAM verdict invokes `_handle_scam` once with the offending message's
user and message ids. -/
theorem C5_theorem (f : String → Option String) (bls : List (List String))
    (u : Update) (v : FilterResult)
    (hone : ¬(u.message.isSome ∧ u.edited_message.isSome))
    (hv : handlerVerdict f bls u = .ok v) :
    (v.verdict ≠ .SCAM → _handle_message f bls u = .noAction) ∧
    (v.verdict = .SCAM → ∃ m uid, selectedMessage u = some m ∧
      m.from_user = some uid ∧
      _handle_message f bls u = .enforce u.chat_id uid m.message_id) := by
  constructor
  · intro hne
    unfold _handle_message
    by_cases hb : u.message.isNone ∧ u.edited_message.isNone
    · simp [hb]
    · rw [if_neg hb]
      cases hsel : selectedMessage u with
      | none => rfl
      | some msg =>
        rw [hv]
        simp [hne]
  · intro hscam
    have hex : ∃ bl ∈ bls, ∃ r, assess f bl u = .ok r ∧ r.verdict = .SCAM := by
      rcases foldVerdict_scam f u bls FilterResult.empty v hv hscam with h0 | h
      · exact absurd h0 (by decide)
      · exact h
    obtain ⟨bl, _, r, ha, hr⟩ := hex
    obtain ⟨m, hs, hu⟩ := assess_scam_scanned f bl u r ha hr
    obtain ⟨uid, huid⟩ := Option.isSome_iff_exists.mp hu
    have hsel : selectedMessage u = some m := selected_of_scanned u m hone hs
    refine ⟨m, uid, hsel, huid, ?_⟩
    have hb : ¬(u.message.isNone ∧ u.edited_message.isNone) := by
      rintro ⟨h1, h2⟩
      rw [Option.isNone_iff_eq_none] at h1 h2
      unfold selectedMessage at hsel
      rw [h1, h2] at hsel
      exact Option.noConfusion hsel
    unfold _handle_message
    rw [if_neg hb]
    rw [hsel]
    rw [hv]
    simp [hscam, huid]

/-- C5 witness: the threshold behavior at a concrete safe blocklist and a
concrete matching blocklist. -/
theorem C5_witness :
    _handle_message hostTotal [["other.example"]] uEvil = .noAction ∧
    ∃ m uid, selectedMessage uEvil = some m ∧ m.from_user = some uid ∧
      _handle_message hostTotal [["evil.example"]] uEvil =
        .enforce uEvil.chat_id uid m.message_id :=
  ⟨(C5_theorem hostTotal [["other.example"]] uEvil ⟨.SAFE, none⟩ (by decide)
      (by decide)).1 (by decide),
   (C5_theorem hostTotal [["evil.example"]] uEvil
      ⟨.SCAM, some ["Message mentions blocked content: evil.example"]⟩ (by decide)
      (by decide)).2 rfl⟩

/-- C6: in canary mode with a recorded timestamp, a SCAM verdict less than
60 seconds after it is throttled with no state change, and one at least 60
seconds after it sends the warning and records the current time; two SCAM
messages in sequence from the initial state produce exactly one warning when
less than 60 seconds apart and exactly two otherwise. -/
theorem C6_theorem :
    (∀ t now : Int, now - t < 60 →
      _handle_scam false true (some t) now = (some t, .throttled)) ∧
    (∀ t now : Int, 60 ≤ now - t →
      _handle_scam false true (some t) now = (some now, .warned)) ∧
    (∀ t1 t2 : Int, t2 - t1 < 60 →
      runScamSeq none [(false, true, t1), (false, true, t2)] =
        (some t1, [.warned, .throttled])) ∧
    (∀ t1 t2 : Int, 60 ≤ t2 - t1 →
      runScamSeq none [(false, true, t1), (false, true, t2)] =
        (some t2, [.warned, .warned])) := by
  refine ⟨fun t now h => ?_, fun t now h => ?_, fun t1 t2 h => ?_, fun t1 t2 h => ?_⟩
  · simp [_handle_scam, h]
  · simp [_handle_scam]
    omega
  · simp [runScamSeq, _handle_scam, h]
  · have h2 : ¬(t2 - t1 < 60) := by omega
    simp [runScamSeq, _handle_scam, h2]

/-- C6 witness: the throttle behavior at concrete timestamps 0, 30 and 90. -/
theorem C6_witness :
    _handle_scam false true (some 0) 30 = (some 0, .throttled) ∧
    _handle_scam false true (some 0) 90 = (some 90, .warned) ∧
    runScamSeq none [(false, true, 0), (false, true, 30)] =
      (some 0, [.warned, .throttled]) ∧
    runScamSeq none [(false, true, 0), (false, true, 90)] =
      (some 90, [.warned, .warned]) :=
  ⟨C6_theorem.1 0 30 (by decide), C6_theorem.2.1 0 90 (by decide),
   C6_theorem.2.2.1 0 30 (by decide), C6_theorem.2.2.2 0 90 (by decide)⟩

/-- C8: a failed external delete or send leaves the throttle state exactly
as it was (the timestamp assignment runs only after a successful send), and
a message whose external call failed leaves every subsequent message to be
processed from the unchanged state. -/
theorem C8_theorem :
    (∀ (adm : Bool) (st : Option Int) (now : Int),
      (_handle_scam adm false st now).1 = st) ∧
    (∀ (st : Option Int) (adm : Bool) (now : Int) (rest : List (Bool × Bool × Int)),
      runScamSeq st ((adm, false, now) :: rest) =
        ((runScamSeq st rest).1,
          (_handle_scam adm false st now).2 :: (runScamSeq st rest).2)) := by
  have h1 : ∀ (adm : Bool) (st : Option Int) (now : Int),
      (_handle_scam adm false st now).1 = st := by
    intro adm st now
    cases adm
    · cases st with
      | none => rfl
      | some t =>
        by_cases h : now - t < 60 <;> simp [_handle_scam, h]
    · rfl
  refine ⟨h1, fun st adm now rest => ?_⟩
  rw [runScamSeq]
  rw [h1 adm st now]

/-- C10: when every message the update carries lacks an originating user,
`BlocklistFilter.assess` extracts no references and returns `FilterResult
(SAFE)` with no explanation, even if the message's entities mention blocked
content. -/
theorem C10_theorem (f : String → Option String) (bl : List String) (u : Update)
    (h1 : ∀ m, u.message = some m → m.from_user = none)
    (h2 : ∀ m, u.edited_message = some m → m.from_user = none) :
    assess f bl u = .ok ⟨.SAFE, none⟩ := by
  have h0 : assessLinks f u = .ok [] := by
    unfold assessLinks
    rw [scanned_none u h1 h2]
  rw [assess_eq f bl u [] h0]
  simp

/-- C10 witness: an update whose only message has no user and mentions a
blocklisted link still comes back SAFE. -/
theorem C10_witness : assess hostTotal ["evil.example"] uNoUser = .ok ⟨.SAFE, none⟩ :=
  C10_theorem hostTotal ["evil.example"] uNoUser
    (fun m h => by
      have hm : mNoUser = m := Option.some.inj h
      rw [← hm]
      rfl)
    (fun m h => Option.noConfusion h)

theorem char_toNat_ofNat {n : Nat} (h : n.isValidChar) : (Char.ofNat n).toNat = n := by
  unfold Char.ofNat
  rw [dif_pos h]
  rfl

theorem char_toNat_inj {c d : Char} (h : c.toNat = d.toNat) : c = d :=
  Char.ext (UInt32.toNat.inj h)

theorem char_ne_of_toNat_ne {c d : Char} (h : c.toNat ≠ d.toNat) : c ≠ d :=
  fun he => h (congrArg Char.toNat he)

theorem toLower_toNat (c : Char) :
    (Char.toLower c).toNat =
      if 65 ≤ c.toNat ∧ c.toNat ≤ 90 then c.toNat + 32 else c.toNat := by
  unfold Char.toLower
  by_cases h : 65 ≤ c.toNat ∧ c.toNat ≤ 90
  · rw [if_pos h, if_pos h]
    exact char_toNat_ofNat (Or.inl (by omega))
  · rw [if_neg h, if_neg h]

theorem toLower_idem (c : Char) : (Char.toLower c).toLower = Char.toLower c := by
  apply char_toNat_inj
  have ht := toLower_toNat c
  rw [toLower_toNat]
  by_cases h : 65 ≤ c.toNat ∧ c.toNat ≤ 90
  · rw [if_pos h] at ht
    rw [ht, if_neg (by omega)]
  · rw [if_neg h] at ht
    rw [ht, if_neg h]

theorem isAuthorityEnd_toLower (c : Char) :
    isAuthorityEnd (Char.toLower c) = isAuthorityEnd c := by
  have d1 : ('/' : Char).toNat = 47 := by decide
  have d2 : ('?' : Char).toNat = 63 := by decide
  have d3 : ('#' : Char).toNat = 35 := by decide
  have ht := toLower_toNat c
  by_cases h : 65 ≤ c.toNat ∧ c.toNat ≤ 90
  · rw [if_pos h] at ht
    have n1 : Char.toLower c ≠ '/' := char_ne_of_toNat_ne (by rw [ht, d1]; omega)
    have n2 : Char.toLower c ≠ '?' := char_ne_of_toNat_ne (by rw [ht, d2]; omega)
    have n3 : Char.toLower c ≠ '#' := char_ne_of_toNat_ne (by rw [ht, d3]; omega)
    have m1 : c ≠ '/' := char_ne_of_toNat_ne (by rw [d1]; omega)
    have m2 : c ≠ '?' := char_ne_of_toNat_ne (by rw [d2]; omega)
    have m3 : c ≠ '#' := char_ne_of_toNat_ne (by rw [d3]; omega)
    simp [isAuthorityEnd, n1, n2, n3, m1, m2, m3]
  · rw [if_neg h] at ht
    rw [char_toNat_inj ht]

theorem takeWhile_all {p : Char → Bool} :
    ∀ (l : List Char), (∀ c ∈ l, p c = true) → l.takeWhile p = l := by
  intro l
  induction l with
  | nil => intro _; rfl
  | cons x xs ih =>
    intro h
    rw [List.takeWhile_cons_of_pos (h x (List.mem_cons_self x xs))]
    rw [ih (fun c hc => h c (List.mem_cons_of_mem x hc))]

theorem map_eq_self {f : Char → Char} :
    ∀ (l : List Char), (∀ c ∈ l, f c = c) → l.map f = l := by
  intro l
  induction l with
  | nil => intro _; rfl
  | cons x xs ih =>
    intro h
    rw [List.map_cons, h x (List.mem_cons_self x xs),
      ih (fun c hc => h c (List.mem_cons_of_mem x hc))]

theorem splitSchemeAux_no_colon :
    ∀ (l acc : List Char), ':' ∉ l → splitSchemeAux acc l = none := by
  intro l
  induction l with
  | nil => intro acc _; rfl
  | cons c rest ih =>
    intro acc h
    have hc : c ≠ ':' := fun he => h (he ▸ List.mem_cons_self c rest)
    simp only [splitSchemeAux]
    rw [if_neg (fun hand => hc hand.1)]
    exact ih (c :: acc) (fun hm => h (List.mem_cons_of_mem c hm))

theorem splitSchemeAux_marker :
    ∀ (s acc rest : List Char), ':' ∉ s →
      splitSchemeAux acc (s ++ ':' :: '/' :: '/' :: rest) =
        some (acc.reverse ++ s, rest) := by
  intro s
  induction s with
  | nil =>
    intro acc rest _
    simp [splitSchemeAux]
  | cons x xs ih =>
    intro acc rest h
    have hx : x ≠ ':' := fun he => h (he ▸ List.mem_cons_self x xs)
    simp only [List.cons_append, splitSchemeAux]
    rw [if_neg (fun hand => hx hand.1)]
    refine Eq.trans (ih (x :: acc) rest (fun hm => h (List.mem_cons_of_mem x hm))) ?_
    simp

theorem mem_stripPortSuffix {c : Char} {suf l : List Char}
    (h : c ∈ stripPortSuffix suf l) : c ∈ l := by
  unfold stripPortSuffix at h
  split at h
  · exact List.take_subset _ _ h
  · exact h

theorem colon_of_isSuffixOf {suf l : List Char} (hc : ':' ∈ suf)
    (h : suf.isSuffixOf l = true) : ':' ∈ l := by
  obtain ⟨t, ht⟩ := List.isSuffixOf_iff_suffix.mp h
  rw [← ht]
  exact List.mem_append_right t hc

theorem hostModelChars_marker (s auth suf : List Char) (hs : ':' ∉ s)
    (hauth : ∀ c ∈ auth, isAuthorityEnd c = false)
    (hsuf : suf = [] ∨ ∃ c r, suf = c :: r ∧ isAuthorityEnd c = true) :
    hostModelChars (s ++ ':' :: '/' :: '/' :: (auth ++ suf)) =
      stripPortSuffix (defaultPortSuffix (s.map Char.toLower))
        (auth.map Char.toLower) := by
  unfold hostModelChars splitScheme
  rw [splitSchemeAux_marker s [] (auth ++ suf) hs]
  simp only [List.reverse_nil, List.nil_append]
  have htw : (auth ++ suf).takeWhile (fun c => !isAuthorityEnd c) = auth := by
    rw [List.takeWhile_append_of_pos (fun c hc => by rw [hauth c hc]; rfl)]
    rcases hsuf with rfl | ⟨c, r, rfl, hc⟩
    · simp
    · rw [List.takeWhile_cons_of_neg (by rw [hc]; simp)]
      simp
  rw [htw]

/-- C7: counterexample — idempotence fails on a canonical reference carrying
a non-default port: `http://evil.example:443` canonicalizes to
`evil.example:443` (443 is not the default port of http), but
re-canonicalizing that string resolves the default scheme https, for which
port 443 IS default and is stripped. -/
theorem C7_counterexample :
    hostModel "http://evil.example:443/x" = "evil.example:443" ∧
    hostModel "evil.example:443" = "evil.example" ∧
    hostModel (hostModel "http://evil.example:443/x") ≠
      hostModel "http://evil.example:443/x" := by
  decide

/-- C7 (amended): two URLs sharing scheme and authority and differing only
in the path/query/fragment suffix canonicalize to the identical string; and
canonicalization is idempotent on every canonical host that carries no
explicit port (no colon) — while port-carrying canonical references can be
re-canonicalized to a different string. -/
theorem C7_amended :
    (∀ (s auth suf1 suf2 : List Char), ':' ∉ s →
      (∀ c ∈ auth, isAuthorityEnd c = false) →
      (suf1 = [] ∨ ∃ c r, suf1 = c :: r ∧ isAuthorityEnd c = true) →
      (suf2 = [] ∨ ∃ c r, suf2 = c :: r ∧ isAuthorityEnd c = true) →
      hostModel ⟨s ++ ':' :: '/' :: '/' :: (auth ++ suf1)⟩ =
        hostModel ⟨s ++ ':' :: '/' :: '/' :: (auth ++ suf2)⟩) ∧
    (∀ u : String, ':' ∉ (hostModel u).data →
      hostModel (hostModel u) = hostModel u) := by
  refine ⟨fun s auth suf1 suf2 hs hauth h1 h2 => ?_, fun u hu => ?_⟩
  · exact congrArg String.mk
      ((hostModelChars_marker s auth suf1 hs hauth h1).trans
        (hostModelChars_marker s auth suf2 hs hauth h2).symm)
  · have hu' : ':' ∉ hostModelChars u.data := hu
    have hdelim : ∀ c ∈ hostModelChars u.data, isAuthorityEnd c = false := by
      intro c hc
      unfold hostModelChars at hc
      have hc2 : c ∈ (((splitScheme u.data).2.takeWhile
          (fun c => !isAuthorityEnd c)).map Char.toLower) := mem_stripPortSuffix hc
      obtain ⟨c0, hc0, rfl⟩ := List.mem_map.mp hc2
      have hp := List.mem_takeWhile_imp hc0
      rw [isAuthorityEnd_toLower]
      simpa using hp
    have hlower : ∀ c ∈ hostModelChars u.data, Char.toLower c = c := by
      intro c hc
      unfold hostModelChars at hc
      have hc2 : c ∈ (((splitScheme u.data).2.takeWhile
          (fun c => !isAuthorityEnd c)).map Char.toLower) := mem_stripPortSuffix hc
      obtain ⟨c0, _, rfl⟩ := List.mem_map.mp hc2
      exact toLower_idem c0
    have hmain : hostModelChars (hostModelChars u.data) = hostModelChars u.data := by
      generalize hout : hostModelChars u.data = out at hu' hdelim hlower
      unfold hostModelChars splitScheme
      rw [splitSchemeAux_no_colon out [] hu']
      simp only []
      rw [takeWhile_all out (fun c hc => by rw [hdelim c hc]; rfl)]
      rw [map_eq_self out hlower]
      have hdp : defaultPortSuffix ("https".data.map Char.toLower) =
          ':' :: '4' :: '4' :: '3' :: [] := by decide
      rw [hdp]
      unfold stripPortSuffix
      rw [if_neg]
      rintro ⟨-, hsuffix⟩
      exact hu' (colon_of_isSuffixOf (List.mem_cons_self _ _) hsuffix)
    exact congrArg String.mk hmain

/-- C7 witness: the amended laws at the spec's own example pair
`https://evil.example/a`, `https://evil.example/b?x=1` and at a port-free
canonical host. -/
theorem C7_witness :
    hostModel ⟨"https".data ++ ':' :: '/' :: '/' ::
        ("evil.example".data ++ "/a".data)⟩ =
      hostModel ⟨"https".data ++ ':' :: '/' :: '/' ::
        ("evil.example".data ++ "/b?x=1".data)⟩ ∧
    hostModel (hostModel "https://evil.example/a") =
      hostModel "https://evil.example/a" :=
  ⟨C7_amended.1 "https".data "evil.example".data "/a".data "/b?x=1".data
      (by decide) (by decide)
      (Or.inr ⟨'/', "a".data, rfl, rfl⟩) (Or.inr ⟨'/', "b?x=1".data, rfl, rfl⟩),
   C7_amended.2 "https://evil.example/a" (by decide)⟩

theorem charsLe_total : ∀ a b : List Char, charsLe a b = true ∨ charsLe b a = true := by
  intro a
  induction a with
  | nil => intro b; left; rfl
  | cons x xs ih =>
    intro b
    cases b with
    | nil => right; rfl
    | cons y ys =>
      rcases lt_trichotomy x y with h | h | h
      · left
        simp [charsLe, h]
      · subst h
        rcases ih ys with h2 | h2
        · left
          simp [charsLe, lt_irrefl, h2]
        · right
          simp [charsLe, lt_irrefl, h2]
      · right
        simp [charsLe, h]

theorem charsLe_trans : ∀ a b c : List Char,
    charsLe a b = true → charsLe b c = true → charsLe a c = true := by
  intro a
  induction a with
  | nil => intro b c _ _; rfl
  | cons x xs ih =>
    intro b c hab hbc
    cases b with
    | nil => simp [charsLe] at hab
    | cons y ys =>
      cases c with
      | nil => simp [charsLe] at hbc
      | cons z zs =>
        rcases lt_trichotomy x y with hxy | hxy | hxy
        · rcases lt_trichotomy y z with hyz | hyz | hyz
          · simp [charsLe, lt_trans hxy hyz]
          · subst hyz
            simp [charsLe, hxy]
          · simp [charsLe, lt_asymm hyz, hyz] at hbc
        · subst hxy
          rcases lt_trichotomy x z with hxz | hxz | hxz
          · simp [charsLe, hxz]
          · subst hxz
            simp only [charsLe, lt_irrefl, if_false] at hab hbc ⊢
            exact ih ys zs hab hbc
          · simp [charsLe, lt_asymm hxz, hxz] at hbc
        · simp [charsLe, lt_asymm hxy, hxy] at hab

theorem strLe_total (a b : String) : strLe a b = true ∨ strLe b a = true :=
  charsLe_total a.data b.data

theorem strLe_trans (a b c : String) (h1 : strLe a b = true)
    (h2 : strLe b c = true) : strLe a c = true :=
  charsLe_trans a.data b.data c.data h1 h2

theorem mem_insertSorted {b s : String} :
    ∀ l, b ∈ insertSorted s l → b = s ∨ b ∈ l := by
  intro l
  induction l with
  | nil =>
    intro h
    simp [insertSorted] at h
    exact Or.inl h
  | cons t r ih =>
    intro h
    unfold insertSorted at h
    by_cases hst : strLe s t = true
    · rw [if_pos hst] at h
      rcases List.mem_cons.mp h with rfl | h2
      · exact Or.inl rfl
      · exact Or.inr h2
    · rw [if_neg hst] at h
      rcases List.mem_cons.mp h with rfl | h2
      · exact Or.inr (List.mem_cons_self _ _)
      · rcases ih h2 with h3 | h3
        · exact Or.inl h3
        · exact Or.inr (List.mem_cons_of_mem _ h3)

theorem pairwise_insertSorted (s : String) :
    ∀ l : List String, List.Pairwise (fun a b => strLe a b = true) l →
      List.Pairwise (fun a b => strLe a b = true) (insertSorted s l) := by
  intro l
  induction l with
  | nil => intro _; exact List.pairwise_singleton _ _
  | cons t r ih =>
    intro hp
    unfold insertSorted
    obtain ⟨htr, hpr⟩ := List.pairwise_cons.mp hp
    by_cases hst : strLe s t = true
    · rw [if_pos hst]
      refine List.Pairwise.cons ?_ hp
      intro b hb
      rcases List.mem_cons.mp hb with rfl | hbr
      · exact hst
      · exact strLe_trans s t b hst (htr b hbr)
    · rw [if_neg hst]
      refine List.pairwise_cons.mpr ⟨?_, ih hpr⟩
      intro b hb
      rcases mem_insertSorted _ hb with rfl | hbr
      · rcases strLe_total b t with h | h
        · exact absurd h hst
        · exact h
      · exact htr b hbr

/-- The model of Python's `sorted` really sorts: its output is pairwise
ordered under the lexicographic string comparison. -/
theorem sortStrs_pairwise :
    ∀ l, List.Pairwise (fun a b => strLe a b = true) (sortStrs l) := by
  intro l
  induction l with
  | nil => exact List.Pairwise.nil
  | cons x xs ih => exact pairwise_insertSorted x _ ih

theorem perm_insertSorted (s : String) : ∀ l, (insertSorted s l).Perm (s :: l) := by
  intro l
  induction l with
  | nil => exact List.Perm.refl _
  | cons t r ih =>
    unfold insertSorted
    by_cases hst : strLe s t = true
    · rw [if_pos hst]
    · rw [if_neg hst]
      exact List.Perm.trans (List.Perm.cons t ih) (List.Perm.swap s t r)

/-- The model of Python's `sorted` is a permutation: it neither drops nor
invents elements. -/
theorem sortStrs_perm : ∀ l, (sortStrs l).Perm l := by
  intro l
  induction l with
  | nil => exact List.Perm.refl _
  | cons x xs ih =>
    exact List.Perm.trans (perm_insertSorted x (sortStrs xs)) (List.Perm.cons x ih)

end FRWS
